import Mathlib

/-!
Verification development for the `rtk` repository's release tooling:
`tools/luaknit.py` (a Lua source bundler) and `tools/mkreapack.py`
(a ReaPack release-manifest generator).  Python text processing is
embedded shallowly over `List Char` / `String`; the regex-based
transformations of the source are translated into equivalent
deterministic scanners; bounded recursion uses an explicit fuel
argument so that every definition evaluates by kernel reduction.
-/

namespace Luaknit

/-- Characters that terminate nothing: a space as used by the Python
regexes (the pattern ` *` matches only ASCII spaces). -/
def isSp (c : Char) : Bool := c == ' '

/-- Drop leading ASCII spaces, mirroring a leading ` *` in a regex. -/
def dropSp : List Char → List Char
  | [] => []
  | c :: rest => if isSp c then dropSp rest else c :: rest

/-- Quote characters recognised by the normalizer's heuristics. -/
def isQuote (c : Char) : Bool := c == '\'' || c == '"'

/-- True when the list contains no quote character at all. -/
def noQuote (cs : List Char) : Bool := cs.all (fun c => !(isQuote c))

/-- Pattern match: does `cs` begin with the literal `pat`. -/
def lstarts : List Char → List Char → Bool
  | [], _ => true
  | _ :: _, [] => false
  | p :: ps, c :: cs => p == c && lstarts ps cs

/-- Split at the first character satisfying `p`: returns the elements
before it and the elements after it (the matching character dropped). -/
def splitFirst (p : Char → Bool) : List Char → Option (List Char × List Char)
  | [] => none
  | c :: rest =>
    if p c then some ([], rest)
    else match splitFirst p rest with
      | some (a, b) => some (c :: a, b)
      | none => none

/-- Python `str.strip()` on the left (whitespace characters). -/
def lstripWs : List Char → List Char
  | [] => []
  | c :: rest => if c.isWhitespace then lstripWs rest else c :: rest

/-- Python `str.strip()`: strip whitespace from both ends. -/
def stripWs (cs : List Char) : List Char :=
  ((lstripWs cs.reverse).reverse |> lstripWs)

/-- Python `str.lstrip('.')`. -/
def lstripDot : List Char → List Char
  | [] => []
  | c :: rest => if c == '.' then lstripDot rest else c :: rest

/-- Python `str.replace(old, new)` for a non-empty `old` = `o :: os`:
left-to-right, non-overlapping.  Fuel-driven; `fuel = cs.length`
always suffices because every step consumes at least one character. -/
def replGo (o : Char) (os new : List Char) : Nat → List Char → List Char
  | 0, cs => cs
  | _ + 1, [] => []
  | n + 1, c :: rest =>
    if lstarts (o :: os) (c :: rest) then
      new ++ replGo o os new n (rest.drop os.length)
    else
      c :: replGo o os new n rest

/-- Python `str.replace` on strings, for a non-empty pattern. -/
def pyreplace (s old new : String) : String :=
  match old.toList with
  | [] => s
  | o :: os => String.mk (replGo o os new.toList s.toList.length s.toList)

/-- Structural splitter on a character predicate (the behaviour of
Python `str.split(sep)` / `re.split` on single-character separators,
keeping empty pieces). -/
def splitOnChP (p : Char → Bool) : List Char → List (List Char)
  | [] => [[]]
  | x :: rest =>
    if p x then [] :: splitOnChP p rest
    else
      match splitOnChP p rest with
      | h :: t => (x :: h) :: t
      | [] => [[x]]

/-- Python `str.split(c)` for a single-character separator. -/
def pysplit (s : String) (c : Char) : List String :=
  (splitOnChP (· == c) s.toList).map String.mk

/-- Python `str.splitlines()` restricted to `'\n'` separators: the
final empty piece produced by a trailing newline is not a line. -/
def pysplitlines (s : String) : List String :=
  if s = "" then []
  else if s.toList.getLast? = some '\n' then (pysplit s '\n').dropLast
  else pysplit s '\n'

/-- Remainder after the first `]]`, if any (the non-greedy `.*?\]\]`). -/
def splitAfterCloseBB : List Char → Option (List Char)
  | [] => none
  | c :: rest =>
    if lstarts [']', ']'] (c :: rest) then some (rest.drop 1)
    else splitAfterCloseBB rest

/-- Embedding of `re.sub(r'[^-]--\[\[.*?\]\](--)?', '', contents, flags=re.S)`
from `get_stripped_source`: a multiline comment opener `--[[` preceded by one
non-dash character is removed together with that character, through the first
closing `]]` and an optional immediately following `--`.  Fuel-driven scan of
the whole contents; each step consumes at least one character. -/
def stripMultilineGo : Nat → List Char → List Char
  | 0, cs => cs
  | _ + 1, [] => []
  | n + 1, c :: rest =>
    if !(c == '-') && lstarts ['-', '-', '[', '['] rest then
      match splitAfterCloseBB (rest.drop 4) with
      | some rem =>
        let rem2 := if lstarts ['-', '-'] rem then rem.drop 2 else rem
        stripMultilineGo n rem2
      | none => c :: stripMultilineGo n rest
    else
      c :: stripMultilineGo n rest

def stripMultiline (cs : List Char) : List Char :=
  stripMultilineGo cs.length cs

/-- The alternation `_(VERSION|DESCRIPTION|URL|LICENSE)` of the metadata
stripper: the keyword following the underscore, if any. -/
def fieldKeyword (cs : List Char) : Option (List Char) :=
  if lstarts "VERSION".toList cs then some "VERSION".toList
  else if lstarts "DESCRIPTION".toList cs then some "DESCRIPTION".toList
  else if lstarts "URL".toList cs then some "URL".toList
  else if lstarts "LICENSE".toList cs then some "LICENSE".toList
  else none

/-- The literal alternatives `(\[\[.*?\]\]|'[^']*'|"[^"]*")` of the metadata
stripper: on success, the remainder after the matched literal. -/
def fieldLiteral : List Char → Option (List Char)
  | '[' :: '[' :: rest => splitAfterCloseBB rest
  | '\'' :: rest =>
    (splitFirst (· == '\'') rest).map Prod.snd
  | '"' :: rest =>
    (splitFirst (· == '"') rest).map Prod.snd
  | _ => none

/-- One attempted match of the metadata-field pattern at the current
position: `_KEYWORD *= *LITERAL,?`; returns the remainder on success. -/
def tryField : List Char → Option (List Char)
  | '_' :: rest =>
    match fieldKeyword rest with
    | none => none
    | some kw =>
      match dropSp (rest.drop kw.length) with
      | '=' :: r2 =>
        match fieldLiteral (dropSp r2) with
        | some r3 => some (if lstarts [','] r3 then r3.drop 1 else r3)
        | none => none
      | _ => none
  | _ => none

/-- Embedding of the informational-field stripper
`re.sub(r'''_(VERSION|...)= *(...),?''', '', contents, flags=re.S)`. -/
def stripFieldsGo : Nat → List Char → List Char
  | 0, cs => cs
  | _ + 1, [] => []
  | n + 1, c :: rest =>
    match tryField (c :: rest) with
    | some rem => stripFieldsGo n rem
    | none => c :: stripFieldsGo n rest

def stripFields (cs : List Char) : List Char :=
  stripFieldsGo cs.length cs

/-- Embedding of `re.sub(r'^ *--.*', '', line)`: a line whose first
non-space characters are `--` is dropped entirely. -/
def stripLineComment (cs : List Char) : List Char :=
  if lstarts ['-', '-'] (dropSp cs) then [] else cs

/-- Embedding of `re.sub(r'''--[^'\"]*$''', '', line)`: the leftmost `--`
followed by no quote character up to the end of the line is removed
together with everything after it. -/
def stripEolCommentGo : Nat → List Char → List Char
  | 0, cs => cs
  | _ + 1, [] => []
  | n + 1, c :: rest =>
    if lstarts ['-', '-'] (c :: rest) && noQuote (rest.drop 1) then []
    else c :: stripEolCommentGo n rest

def stripEolComment (cs : List Char) : List Char :=
  stripEolCommentGo cs.length cs

/-- The two-character operator tokens of the whitespace collapser. -/
def isTok2 (a b : Char) : Bool :=
  (a == '=' && b == '=') || (a == '<' && b == '=') || (a == '>' && b == '=') ||
  (a == '~' && b == '=') || (a == '.' && b == '.')

/-- One attempted match of ` *(two-char token) *` at the current position. -/
def tryTok2 (cs : List Char) : Option (Char × Char × List Char) :=
  match dropSp cs with
  | a :: b :: rest => if isTok2 a b then some (a, b, dropSp rest) else none
  | _ => none

/-- Embedding of `re.sub(r' *(==|<=|>=|~=|\.\.) *', r'\1', line)`:
leftmost, non-overlapping removal of spaces around two-character tokens. -/
def collapse2Go : Nat → List Char → List Char
  | 0, cs => cs
  | _ + 1, [] => []
  | n + 1, c :: rest =>
    match tryTok2 (c :: rest) with
    | some (a, b, r) => a :: b :: collapse2Go n r
    | none => c :: collapse2Go n rest

def collapse2 (cs : List Char) : List Char :=
  collapse2Go cs.length cs

/-- One attempted match of ` *(single char in class) *` at the current
position, for a character class `p`. -/
def tryTok1 (p : Char → Bool) (cs : List Char) : Option (Char × List Char) :=
  match dropSp cs with
  | a :: rest => if p a then some (a, dropSp rest) else none
  | _ => none

/-- Embedding of `re.sub(r' *(CLASS) *', r'\1', line)` for a one-character
class: leftmost, non-overlapping removal of surrounding spaces. -/
def collapse1Go (p : Char → Bool) : Nat → List Char → List Char
  | 0, cs => cs
  | _ + 1, [] => []
  | n + 1, c :: rest =>
    match tryTok1 p (c :: rest) with
    | some (a, r) => a :: collapse1Go p n r
    | none => c :: collapse1Go p n rest

def collapse1 (p : Char → Bool) (cs : List Char) : List Char :=
  collapse1Go p cs.length cs

/-- The single-character token class `[=<>+\-*/,|&%()]` of the collapser. -/
def isOp1 (c : Char) : Bool :=
  c == '=' || c == '<' || c == '>' || c == '+' || c == '-' || c == '*' ||
  c == '/' || c == ',' || c == '|' || c == '&' || c == '%' || c == '(' || c == ')'

/-- Test for the narrow `foo = "bar"` shape `^[^'\"]+=[^=]+$`: there is a
last `=`, a non-empty quote-free part before it and a non-empty part after
it (which by choice of the last `=` contains no further `=`). -/
def matchesAssign (cs : List Char) : Bool :=
  match splitFirst (· == '=') cs.reverse with
  | some (postR, preR) => !postR.isEmpty && !preR.isEmpty && noQuote preR
  | none => false

/-- Per-line normalization of `get_stripped_source`: single-line comment
removal, end-of-line comment heuristic, strip, and the whitespace
collapsing that is only applied when it cannot reach inside a string. -/
def normLine (cs : List Char) : List Char :=
  let l1 := stripLineComment cs
  let l2 := stripWs (stripEolComment l1)
  if noQuote l2 then collapse1 isOp1 (collapse2 l2)
  else if matchesAssign l2 then collapse1 (· == '=') l2
  else l2

/-- Embedding of `get_stripped_source` (the Source Normalizer), taking the
file contents in place of the file name: multiline comments and
informational fields are stripped from the whole contents, then every line
is normalized, and non-empty normalized lines are yielded with their
1-based original line number. -/
def get_stripped_source (contents : String) : List (Nat × String) :=
  let c2 := stripFields (stripMultiline contents.toList)
  ((pysplitlines (String.mk c2)).enumFrom 1).filterMap fun p =>
    let l := normLine p.2.toList
    if l.isEmpty then none else some (p.1, String.mk l)

/-- Split a non-space run at the LAST character satisfying `p`, requiring a
non-empty part before it: returns (part before, part after).  This models
the backtracking of a greedy `(\S+)X`: the longest `\S+` whose next
character matches `X`. -/
def splitLastBy (p : Char → Bool) (run : List Char) : Option (List Char × List Char) :=
  match splitFirst p run.reverse with
  | some (afterR, beforeR) =>
    if beforeR.isEmpty then none else some (beforeR.reverse, afterR.reverse)
  | none => none

/-- The tail ` *\(? *["'](\S+)["']` of the static-import pattern: returns
the captured module name. -/
def parseStaticTail (cs : List Char) : Option (List Char) :=
  let r1 := dropSp cs
  let r2 := match r1 with
    | '(' :: t => dropSp t
    | _ => r1
  match r2 with
  | q :: rest =>
    if isQuote q then
      let run := rest.takeWhile (fun c => !c.isWhitespace)
      match splitLastBy isQuote run with
      | some (g, _) => some g
      | none => none
    else none
  | [] => none

/-- First alternative `[^=]*= *require` of the static-import pattern
followed by its tail: the greedy `[^=]*` necessarily stops at the first
`=` of the line. -/
def matchA (cs : List Char) : Option (List Char) :=
  match splitFirst (· == '=') cs with
  | some (_, post) =>
    let p2 := dropSp post
    if lstarts "require".toList p2 then parseStaticTail (p2.drop 7) else none
  | none => none

/-- Second alternative ` *require` of the static-import pattern followed
by its tail. -/
def matchB (cs : List Char) : Option (List Char) :=
  let p := dropSp cs
  if lstarts "require".toList p then parseStaticTail (p.drop 7) else none

/-- Embedding of the static-import recognizer
`re.search(r'''^([^=]*= *require| *require) *\(? *["'](\S+)["']''', line)`;
the Bool records whether group 1 contained a `=` (first alternative). -/
def matchStatic (cs : List Char) : Option (Bool × List Char) :=
  match matchA cs with
  | some g => some (true, g)
  | none => (matchB cs).map (fun g => (false, g))

/-- One attempted match of the static-rewrite pattern
` *(= *require[ (]+["']\S+["']\)?)` at the current position: returns the
remainder after the match. -/
def subStaticTry (cs : List Char) : Option (List Char) :=
  match dropSp cs with
  | '=' :: t =>
    let t2 := dropSp t
    if lstarts "require".toList t2 then
      let t3 := t2.drop 7
      let taken := t3.takeWhile (fun c => c == ' ' || c == '(')
      if taken.isEmpty then none
      else
        match t3.drop taken.length with
        | q :: t5 =>
          if isQuote q then
            let run := t5.takeWhile (fun c => !c.isWhitespace)
            let afterRun := t5.drop run.length
            match splitLastBy isQuote run with
            | some (_, restRun) =>
              let r := restRun ++ afterRun
              some (if lstarts [')'] r then r.drop 1 else r)
            | none => none
          else none
        | [] => none
    else none
  | _ => none

/-- Embedding of
`re.sub(''' *(= *require[ (]+["']\S+["']\)?)''', '=' + subsymbol, line)`. -/
def subStaticGo (sym : List Char) : Nat → List Char → List Char
  | 0, cs => cs
  | _ + 1, [] => []
  | n + 1, c :: rest =>
    match subStaticTry (c :: rest) with
    | some r => '=' :: (sym ++ subStaticGo sym n r)
    | none => c :: subStaticGo sym n rest

def subStatic (sym cs : List Char) : List Char :=
  subStaticGo sym cs.length cs

/-- One attempted match of the dynamic-import pattern
`= *require *\(([^"']\S+)\)` anchored at a `=`: returns the capture. -/
def tryDyn (cs : List Char) : Option (List Char) :=
  match cs with
  | '=' :: t =>
    let t2 := dropSp t
    if lstarts "require".toList t2 then
      match dropSp (t2.drop 7) with
      | '(' :: t5 =>
        match t5 with
        | c0 :: t6 =>
          if isQuote c0 then none
          else
            let run := t6.takeWhile (fun c => !c.isWhitespace)
            match splitLastBy (· == ')') run with
            | some (g, _) => some (c0 :: g)
            | none => none
        | [] => none
      | _ => none
    else none
  | _ => none

/-- Embedding of `re.search('''= *require *\(([^"']\S+)\)''', line)`:
leftmost match over the line. -/
def findDynamic : List Char → Option (List Char)
  | [] => none
  | c :: rest =>
    match tryDyn (c :: rest) with
    | some g => some g
    | none => findDynamic rest

/-- The runtime-lookup replacement
`'=load("return __mod_" .. {}:gsub("%.", "_"))()'.format(g)`. -/
def dynRewrite (g : List Char) : List Char :=
  "=load(\"return __mod_\" .. ".toList ++ g ++ ":gsub(\"%.\", \"_\"))()".toList

/-- One attempted match of the dynamic-rewrite pattern
` *(= *require *\(\S+\))` at the current position. -/
def subDynamicTry (cs : List Char) : Option (List Char) :=
  match dropSp cs with
  | '=' :: t =>
    let t2 := dropSp t
    if lstarts "require".toList t2 then
      match dropSp (t2.drop 7) with
      | '(' :: t5 =>
        let run := t5.takeWhile (fun c => !c.isWhitespace)
        let afterRun := t5.drop run.length
        match splitLastBy (· == ')') run with
        | some (_, restRun) => some (restRun ++ afterRun)
        | none => none
      | _ => none
    else none
  | _ => none

/-- Embedding of `re.sub(''' *(= *require *\(\S+\))''', rewrite, line)`. -/
def subDynamicGo (rw : List Char) : Nat → List Char → List Char
  | 0, cs => cs
  | _ + 1, [] => []
  | n + 1, c :: rest =>
    match subDynamicTry (c :: rest) with
    | some r => rw ++ subDynamicGo rw n r
    | none => c :: subDynamicGo rw n rest

def subDynamic (rw cs : List Char) : List Char :=
  subDynamicGo rw cs.length cs

/-- Embedding of `get_global_module_name`:
`'__mod_' + re.sub(r'[^a-zA-Z\d_]', '_', name)`. -/
def get_global_module_name (name : String) : String :=
  "__mod_" ++ String.mk
    (name.toList.map fun c => if c.isAlpha || c.isDigit || c == '_' then c else '_')

/-- The character class `[(){}.'"=<>+\-*/,|&%]` of
`print_conditional_newline`. -/
def isPcnlOp (c : Char) : Bool :=
  c == '(' || c == ')' || c == '\x7b' || c == '\x7d' || c == '.' || c == '\'' ||
  c == '"' || c == '=' || c == '<' || c == '>' || c == '+' || c == '-' ||
  c == '*' || c == '/' || c == ',' || c == '|' || c == '&' || c == '%'

/-- Embedding of `print_conditional_newline`: a blank separator line is
appended to the sink when the previous emitted line exists, is non-empty
and does not end in one of the operator characters. -/
def print_conditional_newline (last : Option String) (out : List String) : List String :=
  match last with
  | none => out
  | some l =>
    if !l.isEmpty && !((l.toList.getLast?.map isPcnlOp).getD false) then out ++ ["\n"]
    else out

/-- A model file system: a finite map from path to contents, plus a set of
directory paths.  This stands for the `os.path` probing the bundler does. -/
structure FS where
  files : List (String × String)
  dirs : List String
deriving DecidableEq, Repr

def FS.isfile (fs : FS) (p : String) : Bool := (fs.files.lookup p).isSome

def FS.isdir (fs : FS) (p : String) : Bool := fs.dirs.contains p

def FS.pathExists (fs : FS) (p : String) : Bool := fs.isfile p || fs.isdir p

def FS.read (fs : FS) (p : String) : String := (fs.files.lookup p).getD ""

/-- Embedding of `os.path.join` for POSIX separators. -/
def pjoin (a b : String) : String :=
  if lstarts ['/'] b.toList then b
  else if a = "" then b
  else if a.toList.getLast? = some '/' then a ++ b
  else a ++ "/" ++ b

/-- Embedding of `os.path.dirname` for POSIX separators. -/
def dirname (p : String) : String :=
  match splitFirst (· == '/') p.toList.reverse with
  | none => ""
  | some (_, preR) =>
    let head := preR.reverse ++ ['/']
    if head.all (· == '/') then String.mk head
    else String.mk (head.reverse.dropWhile (· == '/')).reverse

/-- Index of the last occurrence of `c`, if any. -/
def lastIdxOf (c : Char) (cs : List Char) : Option Nat :=
  ((cs.enum.filter fun p => p.2 == c).getLast?).map Prod.fst

/-- Embedding of `os.path.splitext(p)[0]`: chop the extension at the last
dot of the basename, leading dots of the basename not counting. -/
def splitextRoot (p : String) : String :=
  let cs := p.toList
  match lastIdxOf '.' cs with
  | none => p
  | some d =>
    let s0 := match lastIdxOf '/' cs with
      | none => 0
      | some s => s + 1
    if s0 ≤ d && ((cs.drop s0).take (d - s0)).any (· ≠ '.') then String.mk (cs.take d)
    else p

/-- The disambiguating suffix a resolved module's symbol receives:
`suffix.replace('.lua', '').replace('/', '_')`. -/
def suffixTag (s : String) : String :=
  pyreplace (pyreplace s ".lua" "") "/" "_"

/-- The alias table built from the CLI arguments: entries
(symbol, source path, logical module name) in insertion order. -/
abbrev Aliases := List (String × String × String)

/-- Embedding of the candidate-base construction of `process` (the Module
Resolver): the naive dotted-path translation first, then for every alias
whose name matches the requested module exactly or as a dotted prefix, the
joined remainder (and, for a file-valued alias, its extension-stripped
path). -/
def searchBases (fs : FS) (al : Aliases) (submodule : String) : List String :=
  pyreplace submodule "." "/" ::
    (al.map fun t =>
      let asym := t.1
      let apath := t.2.1
      if submodule == asym || lstarts (asym ++ ".").toList submodule.toList then
        let aliasDir := if fs.isfile apath then dirname apath else apath
        let remaining := String.mk (lstripDot (submodule.toList.drop asym.length))
        let base := pjoin aliasDir (pyreplace remaining "." "/")
        (if base == "" then [] else [base]) ++
          (if fs.isfile apath then [splitextRoot apath] else [])
      else []).flatten

/-- Embedding of the probing loop of `process`: the first base for which
`base + '.lua'` or, failing that, `base + '/init.lua'` exists on disk. -/
def findBase (fs : FS) : List String → Option (String × String)
  | [] => none
  | b :: rest =>
    if fs.pathExists (b ++ ".lua") then some (b, ".lua")
    else if fs.pathExists (b ++ "/init.lua") then some (b, "/init.lua")
    else findBase fs rest

/-- The mutable state threaded through a bundling run: the module-name to
symbol registry, the seen-files set (as an insertion-ordered list) and the
append-only output sink. -/
structure BState where
  modules : List (String × String)
  seen : List String
  out : List String
deriving DecidableEq, Repr

/-- The fatal unresolvable-reference condition (`sys.exit(1)` after the
error log naming the referencing file and the missing module). -/
structure BErr where
  st : BState
  filename : String
  missing : String
deriving DecidableEq, Repr

/-- Python dict assignment `d[k] = v`: overwrite in place or append. -/
def dinsert (k v : String) : List (String × String) → List (String × String)
  | [] => [(k, v)]
  | (k', v') :: rest => if k' == k then (k, v) :: rest else (k', v') :: dinsert k v rest

/-- Resolution of one statically required module inside `process`'s loop
(source lines 98 to 136): reuse an already-registered symbol, or probe the
candidate bases, recurse into the discovered file through `recur`, and
report the fatal unresolvable-reference error naming the referencing file
and the missing module.  On success, yields the updated state, cursor and
the submodule's symbol. -/
def resolveRequire (fs : FS) (al : Aliases)
    (recur : String → String → String → BState → Option String →
      Except BErr (BState × Option String))
    (filename submodule : String) (st : BState) (last : Option String) :
    Except BErr (BState × Option String × String) :=
  match st.modules.lookup submodule with
  | some s => .ok (st, last, s)
  | none =>
    match findBase fs (searchBases fs al submodule) with
    | none => .error ⟨st, filename, submodule⟩
    | some (base, sfx) =>
      let subsymbol := get_global_module_name submodule ++ suffixTag sfx
      match recur (base ++ sfx) submodule subsymbol st last with
      | .error e => .error e
      | .ok (st', last') => .ok (st', last', subsymbol)

/-- Handling of one normalized line inside `process`'s loop: static-import
recognition, resolution (recursing through `recur` for a not-yet-loaded
module), bare-require dropping, assignment rewriting, dynamic-import
rewriting and the conditional blank separator before an emitted line. -/
def processLine (fs : FS) (al : Aliases)
    (recur : String → String → String → BState → Option String →
      Except BErr (BState × Option String))
    (filename : String) (line : String) (st : BState) (last : Option String) :
    Except BErr (BState × Option String) :=
  match matchStatic line.toList with
  | some (hasEq, subm) =>
    match resolveRequire fs al recur filename (String.mk subm) st last with
    | .error e => .error e
    | .ok (st', last', subsymbol) =>
      if hasEq then
        let line' := String.mk (subStatic subsymbol.toList line.toList)
        .ok ({ st' with out := print_conditional_newline last' st'.out ++ [line'] },
          some line')
      else
        .ok (st', last')
  | none =>
    let line' :=
      match findDynamic line.toList with
      | some g => String.mk (subDynamic (dynRewrite g) line.toList)
      | none => line
    .ok ({ st with out := print_conditional_newline last st.out ++ [line'] }, some line')

/-- The `for n, line in get_stripped_source(filename)` loop of `process`. -/
def runLines
    (f : String → BState → Option String → Except BErr (BState × Option String)) :
    List (Nat × String) → BState → Option String →
      Except BErr (BState × Option String)
  | [], st, last => .ok (st, last)
  | p :: rest, st, last =>
    match f p.2 st last with
    | .error e => .error e
    | .ok (st', last') => runLines f rest st' last'

/-- The directory-to-entry-file mapping at the top of `process`:
`os.path.join(filename, 'init.lua')` when the path is a directory. -/
def resolveFilename (fs : FS) (filename : String) : String :=
  if fs.isdir filename then pjoin filename "init.lua" else filename

/-- Embedding of `process`, the Bundler core, with an explicit recursion
fuel (any fuel at least the number of distinct reachable files suffices;
running out of fuel yields the early-return value).  Directory paths are
mapped to their conventional `init.lua`, already-seen files short-circuit
with no output, and otherwise the file is registered, wrapped, streamed
line by line and closed. -/
def process (fs : FS) (al : Aliases) :
    Nat → String → String → String → BState → Option String →
      Except BErr (BState × Option String)
  | 0, _, _, _, st, _ => .ok (st, none)
  | fuel + 1, filename0, module, symbol, st, last =>
    let filename := resolveFilename fs filename0
    if st.seen.contains filename then .ok (st, none)
    else
      let st1 : BState :=
        ⟨dinsert module symbol st.modules, st.seen ++ [filename],
          print_conditional_newline last st.out ++ [symbol ++ "=(function()\n"]⟩
      match runLines (processLine fs al (process fs al fuel) filename)
          (get_stripped_source (fs.read filename)) st1 none with
      | .error e => .error e
      | .ok (st2, last2) =>
        .ok ({ st2 with out := print_conditional_newline last2 st2.out ++ ["end)()\n"] },
          last2)

/-- Failure of the top-level driver: a `SYMBOL=PATH` argument with more
than one `=` (a Python unpack error), or a fatal unresolved import. -/
inductive MainErr where
  | badArg : MainErr
  | unresolved : BErr → MainErr
deriving DecidableEq, Repr

/-- Python dict assignment on the alias table. -/
def dinsertA (k : String) (v : String × String) : Aliases → Aliases
  | [] => [(k, v.1, v.2)]
  | (k', p) :: rest => if k' == k then (k, v.1, v.2) :: rest else (k', p) :: dinsertA k v rest

/-- One iteration of `main`'s argument loop: derive the module name from
the raw argument, split a `SYMBOL=PATH` form (recording its symbol as the
return symbol), and register the alias. -/
def parseArg (acc : Aliases × Option String) (f : String) :
    Except MainErr (Aliases × Option String) :=
  let module := pyreplace (pyreplace f ".lua" "") "/" "."
  if f.toList.contains '=' then
    match pysplit f '=' with
    | [symbol, f'] => .ok (dinsertA symbol (f', module) acc.1, some symbol)
    | _ => .error .badArg
  else
    .ok (dinsertA (get_global_module_name module) (f, module) acc.1, acc.2)

/-- Embedding of `main`'s argument loop over all positional arguments. -/
def parseArgs (files : List String) : Except MainErr (Aliases × Option String) :=
  files.foldlM parseArg ([], none)

/-- The `-- comment` header fragments main seeds the output list with. -/
def headerOut (comment : String) : List String :=
  (pysplitlines comment).map fun l => "-- " ++ l ++ "\n"

/-- Embedding of `main`'s bundling loop: one `process` call per alias
entry, sharing the seen-set, registry and sink. -/
def bundleRun (fs : FS) (fuel : Nat) (al : Aliases) (out0 : List String) :
    Except MainErr (List String) :=
  (al.foldlM (fun (st : BState) (t : String × String × String) =>
      match process fs al fuel t.2.1 t.2.2 t.1 st none with
      | .error e => Except.error (MainErr.unresolved e)
      | .ok (st', _) => Except.ok st')
    (⟨[], [], out0⟩ : BState)).map BState.out

/-- The optional `return SYMBOL` trailer appended when a return symbol was
designated. -/
def addTrailer (rsym : Option String) (out : List String) : List String :=
  match rsym with
  | none => out
  | some s => out ++ ["return " ++ s]

/-- Embedding of `main` (minus I/O): parse the arguments, bundle every
alias entry, then append the optional trailer. -/
def mainBundle (fs : FS) (fuel : Nat) (comment : String) (files : List String) :
    Except MainErr (List String) :=
  match parseArgs files with
  | .error e => .error e
  | .ok (al, rsym) => (bundleRun fs fuel al (headerOut comment)).map (addTrailer rsym)

end Luaknit

namespace Mkreapack

open Luaknit (lstarts splitFirst pyreplace)

/-- Python `int()` on a (well-formed, non-negative) decimal string.  The
manifest-versioning code applies `int` only to numeric version parts. -/
def pyInt (s : String) : Nat :=
  s.toList.foldl (fun a c => a * 10 + (c.toNat - 48)) 0

/-- The sort key of `get_latest_from_manifest`:
`int(v.split('.')[0])`, the integer value of the major component. -/
def manifestKey (v : String) : Nat :=
  pyInt ((Luaknit.pysplit v '.').headD v)

/-- Stable insertion into a key-sorted list: the new element goes after
every element with a key less than or equal to its own.  Folding this over
the input reproduces Python's stable `sorted(versions, key=...)`. -/
def insK (x : String) : List String → List String
  | [] => [x]
  | y :: ys => if manifestKey x < manifestKey y then x :: y :: ys else y :: insK x ys

/-- Python's stable `sorted(versions, key=lambda v: int(v.split('.')[0]))`. -/
def pysorted (l : List String) : List String :=
  l.foldl (fun acc x => insK x acc) []

/-- Embedding of `get_latest_from_manifest`, taking the manifest lines in
place of the file: the last element of the stably key-sorted list
(`sorted(...)[-1]`, `none` standing for the crash on an empty manifest). -/
def get_latest_from_manifest (versions : List String) : Option String :=
  (pysorted versions).getLast?

/-- Embedding of `parsever`: `[int(part) for part in re.split(r'[.-]', v)]`. -/
def parsever (v : String) : List Nat :=
  (Luaknit.splitOnChP (fun c => c == '.' || c == '-') v.toList).map
    (fun cs => pyInt (String.mk cs))

/-- Python list comparison `a > b` on integer lists: lexicographic, a
strict prefix being smaller. -/
def pyListGT : List Nat → List Nat → Bool
  | _ :: _, [] => true
  | [], _ => false
  | a :: ta, b :: tb => if a > b then true else if a < b then false else pyListGT ta tb

/-- The `name="..."` scan within one line after a `<version`: embedding of
the `.*?name="([^"]+)` part (the non-greedy `.*?` cannot cross a newline,
and an empty capture makes the scan continue). -/
def scanName : List Char → Option (List Char)
  | [] => none
  | c :: rest =>
    if c == '\n' then none
    else if lstarts "name=\"".toList (c :: rest) then
      let run := ((c :: rest).drop 6).takeWhile (· ≠ '"')
      if run.isEmpty then scanName rest else some run
    else scanName rest

/-- Embedding of `re.search(r'<version.*?name="([^"]+)', xml)`: the first
`<version` occurrence followed on the same line by a `name="` with a
non-empty capture. -/
def findVersionNameGo : List Char → Option (List Char)
  | [] => none
  | c :: rest =>
    if lstarts "<version".toList (c :: rest) then
      match scanName ((c :: rest).drop 8) with
      | some nm => some nm
      | none => findVersionNameGo rest
    else findVersionNameGo rest

def findVersionName (xml : String) : Option String :=
  (findVersionNameGo xml.toList).map String.mk

/-- Embedding of `gen_reapack_version`, taking the manifest lines and the
registry XML text: `none` stands for the crash on an empty manifest. -/
def gen_reapack_version (manifest : List String) (xml : String) : Option String :=
  match get_latest_from_manifest manifest with
  | none => none
  | some latest =>
    match findVersionName xml with
    | none => some latest
    | some reapack =>
      if pyListGT (parsever latest) (parsever reapack) then some latest
      else
        let parts := parsever reapack
        if parts.length = 3 then some (latest ++ "-1")
        else some (latest ++ "-" ++ toString (parts.getLastD 0 + 1))

end Mkreapack


namespace Luaknit

/-- Projection of a bundling outcome to the seen-set (on fatal error, the
state at exit time). -/
def resSeen : Except BErr (BState × Option String) → List String
  | .ok (st, _) => st.seen
  | .error e => e.st.seen

/-- Projection of a bundling outcome to the output sink. -/
def resOut : Except BErr (BState × Option String) → List String
  | .ok (st, _) => st.out
  | .error e => e.st.out

/-- Projection of a bundling outcome to the module registry. -/
def resModules : Except BErr (BState × Option String) → List (String × String)
  | .ok (st, _) => st.modules
  | .error e => e.st.modules

/-- The empty bundling state a run starts from. -/
def st0 : BState := ⟨[], [], []⟩

/-- Fixture: entry module `a` requires `b`, then `c`; `c` requires `b`
again (so `a` requires `b` both directly and transitively). -/
def fs1 : FS :=
  ⟨[("a.lua", "local b = require 'b'\nlocal c = require 'c'\nreturn b+c"),
    ("b.lua", "return 1"),
    ("c.lua", "local b2 = require 'b'\nreturn 2")], []⟩

/-- Fixture: two distinct logical module names, `a.b` and `a_b`, whose
sanitized symbols coincide. -/
def fs2 : FS :=
  ⟨[("main2.lua", "x = require 'a.b'\ny = require 'a_b'"),
    ("a/b.lua", "return 1"),
    ("a_b.lua", "return 2")], []⟩

/-- Fixture: a file requiring a module that exists nowhere on disk. -/
def fs3 : FS := ⟨[("bad.lua", "local m = require 'missing'")], []⟩

/-- Fixture: an assigned require with no space or parenthesis after the
`require` keyword. -/
def fs4 : FS :=
  ⟨[("main4.lua", "x = require\"m\""), ("m.lua", "return 5")], []⟩

/-- Specification-side reading of the `SYMBOL=PATH` designation (modelled
from the spec's output-format contract): the symbol of the last argument
written in `SYMBOL=PATH` form, if any. -/
def designatedEntrySpec (files : List String) : Option String :=
  ((files.filter fun f => f.toList.contains '=').getLast?).map
    fun f => (pysplit f '=').headD f

end Luaknit

namespace Mkreapack

/-- One step of the selection the manifest sort induces: keep the later
element whenever its key is at least the current best's key. -/
def pickLatest (acc : Option String) (x : String) : Option String :=
  match acc with
  | none => some x
  | some a => if manifestKey a ≤ manifestKey x then some x else some a

/-- The maximal major component appearing in the manifest. -/
def maxMajor (l : List String) : Nat :=
  (l.map manifestKey).foldl max 0

/-- Specification-side latest-entry selection: among the entries whose
major component is maximal, the one appearing last in the file. -/
def latestByMajorSpec (l : List String) : Option String :=
  (l.filter fun v => manifestKey v == maxMajor l).getLast?

end Mkreapack

namespace Luaknit

/-- Projection of a bundling outcome to the returned last-line cursor
(`none` when the run died with `sys.exit(1)`). -/
def resLast : Except BErr (BState × Option String) → Option (Option String)
  | .ok (_, l) => some l
  | .error _ => none

/-- Projection of a resolution outcome to the seen-set. -/
def resSeenR : Except BErr (BState × Option String × String) → List String
  | .ok (st, _) => st.seen
  | .error e => e.st.seen

end Luaknit

open Luaknit Mkreapack

/-- Claim C4: for the input line `x = "a -- b"`, the Normalizer's yielded
line retains the literal string content `a -- b` unchanged — neither
comment stripping nor whitespace collapsing reaches inside the quoted
string even though `--` appears between the quotes; the only change is
the collapse of the spaces around the `=` outside the string. -/
theorem C4_normalizer_preserves_string_literal :
    get_stripped_source "x = \"a -- b\"" = [(1, "x=\"a -- b\"")] := rfl

/-- Claim C9: with a manifest whose latest entry is `2.3.0`, a registry
whose latest version name is `2.3.0` yields the next version `2.3.0-1`,
and one whose latest version name is `2.3.0-1` yields `2.3.0-2`: the
trailing build counter is incremented because the manifest's semantic
version did not advance past the registry's. -/
theorem C9_manifest_versioning (m : List String)
    (h : get_latest_from_manifest m = some "2.3.0") :
    gen_reapack_version m
      "<reapack>\n      <version name=\"2.3.0\" author=\"x\" time=\"t\">\n</reapack>" =
      some "2.3.0-1" ∧
    gen_reapack_version m
      "<reapack>\n      <version name=\"2.3.0-1\" author=\"x\" time=\"t\">\n</reapack>" =
      some "2.3.0-2" := by
  unfold gen_reapack_version
  rw [h]
  exact ⟨rfl, rfl⟩

/-- Witness for C9 at the concrete one-line manifest `2.3.0`. -/
theorem C9_manifest_versioning_witness :
    get_latest_from_manifest ["2.3.0"] = some "2.3.0" ∧
    (gen_reapack_version ["2.3.0"]
      "<reapack>\n      <version name=\"2.3.0\" author=\"x\" time=\"t\">\n</reapack>" =
      some "2.3.0-1" ∧
    gen_reapack_version ["2.3.0"]
      "<reapack>\n      <version name=\"2.3.0-1\" author=\"x\" time=\"t\">\n</reapack>" =
      some "2.3.0-2") :=
  ⟨rfl, C9_manifest_versioning ["2.3.0"] rfl⟩

/-- Counterexample to claim C2: the emitted block order is NOT
`[B's block, C's block, A's block]` — the very first fragment the bundler
appends is A's own wrapper opener, and B's block appears only afterwards
(nested inside A's block), because `process` emits the requester's wrapper
before streaming the lines that trigger the recursive inlining. -/
theorem C2_counterexample :
    (resOut (process fs1 [] 9 "a.lua" "a" "__mod_a" st0 none)).head? =
      some "__mod_a=(function()\n" ∧
    (resOut (process fs1 [] 9 "a.lua" "a" "__mod_a" st0 none)).contains
      "__mod_b=(function()\n" = true ∧
    ("__mod_a=(function()\n" : String) ≠ "__mod_b=(function()\n" :=
  ⟨rfl, rfl, by decide⟩

/-- Claim C2 (amended): traversal is strict depth-first following the
first occurrence of each require in line order, and each required
module's entire wrapped block appears in the output before the rewritten
line of `a` that required it; but the blocks are NESTED inside the
requester's wrapper rather than laid out sequentially: `a`'s wrapper
opens first (fragment 0) and closes last, `b`'s whole block occupies
fragments 1 to 4 and precedes `a`'s requiring line (fragment 6), and
`c`'s whole block occupies fragments 8 to 13 and precedes its requiring
line (fragment 15); the block completion order is thus b, c, a. -/
theorem C2_amended_nested_depth_first :
    process fs1 [] 9 "a.lua" "a" "__mod_a" st0 none =
      .ok (⟨[("a", "__mod_a"), ("b", "__mod_b"), ("c", "__mod_c")],
            ["a.lua", "b.lua", "c.lua"],
            ["__mod_a=(function()\n", "__mod_b=(function()\n", "return 1", "\n",
             "end)()\n", "\n", "local b=__mod_b", "\n", "__mod_c=(function()\n",
             "local b2=__mod_b", "\n", "return 2", "\n", "end)()\n", "\n",
             "local c=__mod_c", "\n", "return b+c", "\n", "end)()\n"]⟩,
        some "return b+c") := rfl

/-- Counterexample to claim C3: registered symbol names are NOT unique in
general — the distinct logical modules `a.b` and `a_b`, resolved in the
same run, both sanitize to `__mod_a_b`, the registry maps both names to
that one symbol and two wrapped blocks with the same symbol are emitted. -/
theorem C3_counterexample :
    (resModules (process fs2 [] 9 "main2.lua" "main2" "__mod_main2" st0 none)).lookup
      "a.b" = some "__mod_a_b" ∧
    (resModules (process fs2 [] 9 "main2.lua" "main2" "__mod_main2" st0 none)).lookup
      "a_b" = some "__mod_a_b" ∧
    ("a.b" : String) ≠ "a_b" ∧
    (resOut (process fs2 [] 9 "main2.lua" "main2" "__mod_main2" st0 none)).count
      "__mod_a_b=(function()\n" = 2 :=
  ⟨rfl, rfl, by decide, rfl⟩

/-- Counterexample to claim C6: a normalized line matching the static
pattern of a static import whose require keyword is followed by neither a space nor a
parenthesis (`x=require"m"`) is an assignment, yet it is NOT rewritten to
reference the resolved symbol — the rewrite regex demands `[ (]+` after
`require`, so the line is emitted verbatim. -/
theorem C6_counterexample :
    process fs4 [] 9 "main4.lua" "main4" "__mod_main4" st0 none =
      .ok (⟨[("main4", "__mod_main4"), ("m", "__mod_m")],
            ["main4.lua", "m.lua"],
            ["__mod_main4=(function()\n", "__mod_m=(function()\n", "return 5", "\n",
             "end)()\n", "\n", "x=require\"m\"", "end)()\n"]⟩,
        some "x=require\"m\"") ∧
    ("x=require\"m\"" : String) ≠ "x=__mod_m" :=
  ⟨rfl, by decide⟩

/-- Counterexample to claim C8: on the deduplication early return the
code executes a bare `return` — the caller receives `none`, NOT the
incoming cursor (`some "prev"` here), so the running last-line cursor is
lost across that boundary. -/
theorem C8_counterexample :
    process fs1 [] 5 "a.lua" "mod" "sym" ⟨[], ["a.lua"], ["prev"]⟩ (some "prev") =
      .ok (⟨[], ["a.lua"], ["prev"]⟩, none) ∧
    (none : Option String) ≠ some "prev" :=
  ⟨rfl, by decide⟩

/-- The seen-set never shrinks: helper chain showing every bundling
step only appends to the seen list. -/
theorem resSeen_resolveRequire (fs : FS) (al : Aliases)
    (recur : String → String → String → BState → Option String → Except BErr (BState × Option String))
    (hrec : ∀ fn m s st last, ∃ t, resSeen (recur fn m s st last) = st.seen ++ t)
    (filename submodule : String) (st : BState) (last : Option String) :
    ∃ t, resSeenR (resolveRequire fs al recur filename submodule st last) = st.seen ++ t := by
  simp only [resolveRequire]
  split
  · exact ⟨[], by simp [resSeenR]⟩
  · split
    · exact ⟨[], by simp [resSeenR]⟩
    · rename_i base sfx hfb
      split
      · rename_i e hr
        obtain ⟨t, ht⟩ := hrec (base ++ sfx) submodule
          (get_global_module_name submodule ++ suffixTag sfx) st last
        rw [hr] at ht
        exact ⟨t, by simpa [resSeenR, resSeen] using ht⟩
      · rename_i st' last' hr
        obtain ⟨t, ht⟩ := hrec (base ++ sfx) submodule
          (get_global_module_name submodule ++ suffixTag sfx) st last
        rw [hr] at ht
        exact ⟨t, by simpa [resSeenR, resSeen] using ht⟩

theorem resSeen_processLine (fs : FS) (al : Aliases)
    (recur : String → String → String → BState → Option String → Except BErr (BState × Option String))
    (hrec : ∀ fn m s st last, ∃ t, resSeen (recur fn m s st last) = st.seen ++ t)
    (fn line : String) (st : BState) (last : Option String) :
    ∃ t, resSeen (processLine fs al recur fn line st last) = st.seen ++ t := by
  unfold processLine
  split
  · rename_i hasEq subm heq
    obtain ⟨t, ht⟩ := resSeen_resolveRequire fs al recur hrec fn (String.mk subm) st last
    cases hres : resolveRequire fs al recur fn (String.mk subm) st last with
    | error e =>
      rw [hres] at ht
      exact ⟨t, by simpa [resSeenR, resSeen] using ht⟩
    | ok p =>
      obtain ⟨st', last', subsymbol⟩ := p
      rw [hres] at ht
      cases hasEq
      · exact ⟨t, by simpa [resSeenR, resSeen] using ht⟩
      · exact ⟨t, by simpa [resSeenR, resSeen] using ht⟩
  · exact ⟨[], by simp [resSeen]⟩

theorem resSeen_runLines
    (f : String → BState → Option String → Except BErr (BState × Option String))
    (hf : ∀ line st last, ∃ t, resSeen (f line st last) = st.seen ++ t) :
    ∀ (lines : List (Nat × String)) (st : BState) (last : Option String),
      ∃ t, resSeen (runLines f lines st last) = st.seen ++ t := by
  intro lines
  induction lines with
  | nil => intro st last; exact ⟨[], by simp [runLines, resSeen]⟩
  | cons p rest ih =>
    intro st last
    unfold runLines
    cases hr : f p.2 st last with
    | error e =>
      obtain ⟨t, ht⟩ := hf p.2 st last
      rw [hr] at ht
      exact ⟨t, by simpa [resSeen] using ht⟩
    | ok q =>
      obtain ⟨st', last'⟩ := q
      obtain ⟨t1, ht1⟩ := hf p.2 st last
      rw [hr] at ht1
      obtain ⟨t2, ht2⟩ := ih st' last'
      refine ⟨t1 ++ t2, ?_⟩
      simp only [resSeen] at ht1
      rw [ht2, ht1, List.append_assoc]

theorem resSeen_process (fs : FS) (al : Aliases) :
    ∀ (fuel : Nat) (fn m s : String) (st : BState) (last : Option String),
      ∃ t, resSeen (process fs al fuel fn m s st last) = st.seen ++ t := by
  intro fuel
  induction fuel with
  | zero => intro fn m s st last; exact ⟨[], by simp [process, resSeen]⟩
  | succ n ih =>
    intro fn m s st last
    simp only [process]
    by_cases hc : st.seen.contains (resolveFilename fs fn) = true
    · rw [if_pos hc]
      exact ⟨[], by simp [resSeen]⟩
    · rw [if_neg hc]
      obtain ⟨t, ht⟩ := resSeen_runLines
        (processLine fs al (process fs al n) (resolveFilename fs fn))
        (fun line st' last' => resSeen_processLine fs al (process fs al n)
          (fun fn' m' s' st'' last'' => ih fn' m' s' st'' last'')
          (resolveFilename fs fn) line st' last')
        (get_stripped_source (fs.read (resolveFilename fs fn)))
        ⟨dinsert m s st.modules, st.seen ++ [resolveFilename fs fn],
          print_conditional_newline last st.out ++ [s ++ "=(function()\n"]⟩ none
      cases hr : runLines (processLine fs al (process fs al n) (resolveFilename fs fn))
          (get_stripped_source (fs.read (resolveFilename fs fn)))
          ⟨dinsert m s st.modules, st.seen ++ [resolveFilename fs fn],
            print_conditional_newline last st.out ++ [s ++ "=(function()\n"]⟩ none with
      | error e =>
        rw [hr] at ht
        simp only [resSeen] at ht
        exact ⟨[resolveFilename fs fn] ++ t, by simp [resSeen, ht]⟩
      | ok q =>
        obtain ⟨st2, last2⟩ := q
        rw [hr] at ht
        simp only [resSeen] at ht
        exact ⟨[resolveFilename fs fn] ++ t, by simp [resSeen, ht]⟩

theorem resSeen_process_succ (fs : FS) (al : Aliases) (n : Nat) (fn m s : String)
    (st : BState) (last : Option String)
    (hc : st.seen.contains (resolveFilename fs fn) = false) :
    ∃ t, resSeen (process fs al (n + 1) fn m s st last) =
      (st.seen ++ [resolveFilename fs fn]) ++ t := by
  simp only [process]
  rw [if_neg (by simpa using hc)]
  obtain ⟨t, ht⟩ := resSeen_runLines
    (processLine fs al (process fs al n) (resolveFilename fs fn))
    (fun line st' last' => resSeen_processLine fs al (process fs al n)
      (fun fn' m' s' st'' last'' => resSeen_process fs al n fn' m' s' st'' last'')
      (resolveFilename fs fn) line st' last')
    (get_stripped_source (fs.read (resolveFilename fs fn)))
    ⟨dinsert m s st.modules, st.seen ++ [resolveFilename fs fn],
      print_conditional_newline last st.out ++ [s ++ "=(function()\n"]⟩ none
  cases hr : runLines (processLine fs al (process fs al n) (resolveFilename fs fn))
      (get_stripped_source (fs.read (resolveFilename fs fn)))
      ⟨dinsert m s st.modules, st.seen ++ [resolveFilename fs fn],
        print_conditional_newline last st.out ++ [s ++ "=(function()\n"]⟩ none with
  | error e =>
    rw [hr] at ht
    simp only [resSeen] at ht
    exact ⟨t, by simp [resSeen, ht]⟩
  | ok q =>
    obtain ⟨st2, last2⟩ := q
    rw [hr] at ht
    simp only [resSeen] at ht
    exact ⟨t, by simp [resSeen, ht]⟩


/-- Appending the non-empty tag `_init` always changes a string. -/
theorem string_ne_append_init (s : String) : s ++ "" ≠ s ++ "_init" := by
  intro h
  have h3 : s.data ++ ([] : List Char) = s.data ++ "_init".data := congrArg String.data h
  have h4 := congrArg List.length h3
  simp at h4

/-- Shared lemma: whatever the fuel, a `process` call whose resolved path
is already in the seen-set returns immediately with the state untouched
and a `None` cursor (the bare `return` of line 85). -/
theorem process_early_return (fs : FS) (al : Aliases) (fuel : Nat)
    (fn mod sym : String) (st : BState) (last : Option String)
    (h : st.seen.contains (resolveFilename fs fn) = true) :
    process fs al fuel fn mod sym st last = .ok (st, none) := by
  cases fuel with
  | zero => rfl
  | succ n =>
    simp only [process]
    rw [if_pos (by simpa using h)]

/-- Shared lemma: a line matching the static-import pattern through the
assignment alternative, whose module already has a registered symbol, is
emitted after the static rewrite (with the conditional blank separator)
and becomes the new cursor. -/
theorem processLine_assign_found (fs : FS) (al : Aliases)
    (recur : String → String → String → BState → Option String → Except BErr (BState × Option String))
    (filename line : String) (st : BState) (last : Option String)
    (subm : List Char) (s : String)
    (h1 : matchStatic line.toList = some (true, subm))
    (h2 : st.modules.lookup (String.mk subm) = some s) :
    processLine fs al recur filename line st last =
      .ok ({ st with out := print_conditional_newline last st.out ++
          [String.mk (subStatic s.toList line.toList)] },
        some (String.mk (subStatic s.toList line.toList))) := by
  have h1' : matchStatic line.data = some (true, subm) := h1
  have h2' : List.lookup { data := subm } st.modules = some s := h2
  simp [processLine, resolveRequire, h1', h2']

example (recur : String → String → String → BState → Option String → Except BErr (BState × Option String))
    (st : BState) (last : Option String)
    (h : st.modules.lookup "b" = some "__mod_b") :
    processLine fs1 [] recur "a.lua" "local b=require 'b'" st last =
      .ok ({ st with out := print_conditional_newline last st.out ++ ["local b=__mod_b"] },
        some "local b=__mod_b") :=
  processLine_assign_found fs1 [] recur "a.lua" "local b=require 'b'" st last ['b'] "__mod_b" rfl h

/-- Claim C1: each physical file is inlined at most once per run.  If the
resolved path is already in the seen-set, `process` returns immediately
and appends nothing to the output sink; otherwise the path is added to
the seen-set (it is in the seen-set of the resulting state, whether the
run succeeds or dies).  In particular, in the fixture where module `a`
requires `b` directly and again transitively through `c`, exactly one
wrapped block for `b` appears in the output. -/
theorem C1_idempotent_inlining :
    (∀ (fs : FS) (al : Aliases) (fuel : Nat) (fn mod sym : String) (st : BState)
        (last : Option String),
      st.seen.contains (resolveFilename fs fn) = true →
      process fs al fuel fn mod sym st last = .ok (st, none)) ∧
    (∀ (fs : FS) (al : Aliases) (fuel : Nat) (fn mod sym : String) (st : BState)
        (last : Option String),
      st.seen.contains (resolveFilename fs fn) = false →
      (resSeen (process fs al (fuel + 1) fn mod sym st last)).contains
        (resolveFilename fs fn) = true) ∧
    (resOut (process fs1 [] 9 "a.lua" "a" "__mod_a" st0 none)).count
      "__mod_b=(function()\n" = 1 := by
  refine ⟨fun fs al fuel fn mod sym st last h => process_early_return fs al fuel fn mod sym st last h, ?_, rfl⟩
  intro fs al fuel fn mod sym st last h
  obtain ⟨t, ht⟩ := resSeen_process_succ fs al fuel fn mod sym st last h
  rw [ht]
  simp

/-- Witness for C1 at concrete inputs: a run whose entry is already seen
returns unchanged, and a fresh run registers its file in the seen-set. -/
theorem C1_idempotent_inlining_witness :
    process fs1 [] 5 "b.lua" "b" "__mod_b" ⟨[], ["b.lua"], []⟩ none =
      .ok (⟨[], ["b.lua"], []⟩, none) ∧
    (resSeen (process fs1 [] (0 + 1) "b.lua" "b" "__mod_b" st0 none)).contains
      "b.lua" = true :=
  ⟨C1_idempotent_inlining.1 fs1 [] 5 "b.lua" "b" "__mod_b" ⟨[], ["b.lua"], []⟩ none (by decide),
   C1_idempotent_inlining.2.1 fs1 [] 0 "b.lua" "b" "__mod_b" st0 none (by decide)⟩

/-- Claim C8 (amended): `process` propagates the running cursor across
nested inlining, but NOT in every case: on the deduplication early return
it returns `None` (resetting the cursor) rather than the incoming cursor,
and after a normal completion it returns the last normalized body line it
emitted — which is not the most recent fragment appended to the sink
(that is the closing wrapper `end)()`). -/
theorem C8_amended_cursor :
    (∀ (fs : FS) (al : Aliases) (fuel : Nat) (fn mod sym : String) (st : BState)
        (last : Option String),
      st.seen.contains (resolveFilename fs fn) = true →
      process fs al fuel fn mod sym st last = .ok (st, none)) ∧
    resLast (process fs1 [] 9 "a.lua" "a" "__mod_a" st0 none) = some (some "return b+c") ∧
    (resOut (process fs1 [] 9 "a.lua" "a" "__mod_a" st0 none)).getLast? = some "end)()\n" ∧
    ("end)()\n" : String) ≠ "return b+c" :=
  ⟨fun fs al fuel fn mod sym st last h => process_early_return fs al fuel fn mod sym st last h,
   rfl, rfl, by decide⟩

/-- Witness for the early-return clause of the amended C8. -/
theorem C8_amended_cursor_witness :
    process fs1 [] 4 "a.lua" "x" "y" ⟨[], ["a.lua"], ["w"]⟩ (some "w") =
      .ok (⟨[], ["a.lua"], ["w"]⟩, none) :=
  C8_amended_cursor.1 fs1 [] 4 "a.lua" "x" "y" ⟨[], ["a.lua"], ["w"]⟩ (some "w") (by decide)

/-- Claim C5: when a statically required module resolves through no
candidate base with either the `.lua` or `/init.lua` suffix, the bundler
fails fatally with an error identifying the referencing file and the
missing module name (the embedded counterpart of the error log plus
`sys.exit(1)`), with no recovery; a whole `mainBundle` run on such an
input yields that error. -/
theorem C5_unresolvable_import_fatal :
    (∀ (fs : FS) (al : Aliases)
        (recur : String → String → String → BState → Option String →
          Except BErr (BState × Option String))
        (filename line : String) (st : BState) (last : Option String)
        (hasEq : Bool) (subm : List Char),
      matchStatic line.toList = some (hasEq, subm) →
      st.modules.lookup (String.mk subm) = none →
      findBase fs (searchBases fs al (String.mk subm)) = none →
      processLine fs al recur filename line st last =
        .error ⟨st, filename, String.mk subm⟩) ∧
    mainBundle fs3 9 "c" ["bad.lua"] =
      .error (.unresolved ⟨⟨[("bad", "__mod_bad")], ["bad.lua"],
        ["-- c\n", "__mod_bad=(function()\n"]⟩, "bad.lua", "missing"⟩) := by
  refine ⟨?_, rfl⟩
  intro fs al recur filename line st last hasEq subm h1 h2 h3
  have h1' : matchStatic line.data = some (hasEq, subm) := h1
  have h2' : List.lookup { data := subm } st.modules = none := h2
  have h3' : findBase fs (searchBases fs al { data := subm }) = none := h3
  simp [processLine, resolveRequire, h1', h2', h3']

/-- Witness for C5 at a concrete missing-module line. -/
theorem C5_unresolvable_import_fatal_witness :
    processLine fs3 [] (fun _ _ _ st _ => .ok (st, none)) "bad.lua"
      "local m=require 'missing'" st0 none = .error ⟨st0, "bad.lua", "missing"⟩ :=
  C5_unresolvable_import_fatal.1 fs3 [] (fun _ _ _ st _ => .ok (st, none)) "bad.lua"
    "local m=require 'missing'" st0 none true "missing".toList rfl rfl rfl

/-- Claim C6 (amended): a bare `require` line (no assignment) is dropped
entirely, producing no output line; an assignment require is rewritten to
an assignment of the resolved symbol PROVIDED the `require` keyword is
followed by at least one space or `(` (the rewrite pattern demands
`[ (]+`): `local b=require 'b'` becomes `local b=__mod_b`, while the
quirky `x=require"m"` matches the import pattern but is emitted verbatim. -/
theorem C6_amended_static_rewrite :
    (∀ (fs : FS) (al : Aliases)
        (recur : String → String → String → BState → Option String →
          Except BErr (BState × Option String))
        (filename line : String) (st : BState) (last : Option String)
        (subm : List Char) (s : String),
      matchStatic line.toList = some (false, subm) →
      st.modules.lookup (String.mk subm) = some s →
      processLine fs al recur filename line st last = .ok (st, last)) ∧
    (∀ (recur : String → String → String → BState → Option String →
          Except BErr (BState × Option String)) (st : BState) (last : Option String),
      st.modules.lookup "b" = some "__mod_b" →
      processLine fs1 [] recur "a.lua" "local b=require 'b'" st last =
        .ok ({ st with out := print_conditional_newline last st.out ++ ["local b=__mod_b"] },
          some "local b=__mod_b")) ∧
    (∀ (recur : String → String → String → BState → Option String →
          Except BErr (BState × Option String)) (st : BState) (last : Option String),
      st.modules.lookup "m" = some "__mod_m" →
      processLine fs4 [] recur "main4.lua" "x=require\"m\"" st last =
        .ok ({ st with out := print_conditional_newline last st.out ++ ["x=require\"m\""] },
          some "x=require\"m\"")) := by
  refine ⟨?_,
    fun recur st last h =>
      processLine_assign_found fs1 [] recur "a.lua" "local b=require 'b'" st last
        ['b'] "__mod_b" rfl h,
    fun recur st last h =>
      processLine_assign_found fs4 [] recur "main4.lua" "x=require\"m\"" st last
        ['m'] "__mod_m" rfl h⟩
  intro fs al recur filename line st last subm s h1 h2
  have h1' : matchStatic line.data = some (false, subm) := h1
  have h2' : List.lookup { data := subm } st.modules = some s := h2
  simp [processLine, resolveRequire, h1', h2']

/-- Witness for the amended C6: a bare require line emits nothing, an
assigned require line is rewritten to the symbol. -/
theorem C6_amended_static_rewrite_witness :
    processLine fs1 [] (fun _ _ _ st _ => .ok (st, none)) "a.lua" "require 'b'"
      ⟨[("b", "__mod_b")], [], []⟩ none = .ok (⟨[("b", "__mod_b")], [], []⟩, none) ∧
    processLine fs1 [] (fun _ _ _ st _ => .ok (st, none)) "a.lua" "local b=require 'b'"
      ⟨[("b", "__mod_b")], [], []⟩ none =
      .ok (⟨[("b", "__mod_b")], [], ["local b=__mod_b"]⟩, some "local b=__mod_b") :=
  ⟨C6_amended_static_rewrite.1 fs1 [] (fun _ _ _ st _ => .ok (st, none)) "a.lua"
      "require 'b'" ⟨[("b", "__mod_b")], [], []⟩ none ['b'] "__mod_b" rfl rfl,
   C6_amended_static_rewrite.2.1 (fun _ _ _ st _ => .ok (st, none))
      ⟨[("b", "__mod_b")], [], []⟩ none rfl⟩

/-- Claim C3 (amended): a module's symbol is derived deterministically
from its logical name — `.lua` resolution yields `__mod_` plus the
sanitized name, `/init.lua` resolution appends `_init` — and the two
derivations never collide for the SAME logical name.  (Uniqueness across
distinct logical names fails: see the counterexample, where `a.b` and
`a_b` sanitize to the same symbol.) -/
theorem C3_amended_symbol_derivation (name : String) :
    get_global_module_name name ++ suffixTag ".lua" = get_global_module_name name ∧
    get_global_module_name name ++ suffixTag "/init.lua" =
      get_global_module_name name ++ "_init" ∧
    get_global_module_name name ++ suffixTag ".lua" ≠
      get_global_module_name name ++ suffixTag "/init.lua" := by
  have h1 : suffixTag ".lua" = "" := rfl
  have h2 : suffixTag "/init.lua" = "_init" := rfl
  refine ⟨by rw [h1]; simp, rfl, ?_⟩
  rw [h1, h2]
  exact string_ne_append_init (get_global_module_name name)

/-- Unfolding of the designated-entry selection over a `SYMBOL=PATH`
argument at the head of the argument list. -/
theorem designated_cons_pos (f : String) (rest : List String)
    (hc : f.toList.contains '=' = true) :
    designatedEntrySpec (f :: rest) =
      (designatedEntrySpec rest).elim (some ((pysplit f '=').headD f)) some := by
  unfold designatedEntrySpec
  rw [show List.filter (fun g => g.toList.contains '=') (f :: rest) =
      f :: List.filter (fun g => g.toList.contains '=') rest by
    simp only [List.filter_cons, hc, if_true]]
  cases hfr : List.filter (fun g => g.toList.contains '=') rest with
  | nil => simp
  | cons g gs =>
    rw [List.getLast?_cons_cons]
    cases hgl : (g :: gs).getLast? with
    | none => exact absurd (List.getLast?_eq_none_iff.mp hgl) (by simp)
    | some x => simp

/-- Unfolding of the designated-entry selection over a plain-path
argument at the head of the argument list. -/
theorem designated_cons_neg (f : String) (rest : List String)
    (hc : f.toList.contains '=' = false) :
    designatedEntrySpec (f :: rest) = designatedEntrySpec rest := by
  unfold designatedEntrySpec
  rw [show List.filter (fun g => g.toList.contains '=') (f :: rest) =
      List.filter (fun g => g.toList.contains '=') rest by
    simp only [List.filter_cons, hc, Bool.false_eq_true, if_false]]

/-- The argument loop of `main` computes, as return symbol, the symbol of
the last `SYMBOL=PATH` argument (falling back to the incoming value),
provided every `SYMBOL=PATH` argument splits into exactly two parts. -/
theorem parseArgs_foldl (files : List String) :
    ∀ (acc0 : Aliases) (r0 : Option String),
      (∀ f ∈ files, f.toList.contains '=' = true → ∃ a b, pysplit f '=' = [a, b]) →
      ∃ al, List.foldlM parseArg (acc0, r0) files =
        .ok (al, (designatedEntrySpec files).elim r0 some) := by
  induction files with
  | nil =>
    intro acc0 r0 _
    exact ⟨acc0, rfl⟩
  | cons f rest ih =>
    intro acc0 r0 h
    rw [List.foldlM_cons]
    by_cases hc : f.toList.contains '=' = true
    · obtain ⟨a, b, hs⟩ := h f (List.mem_cons_self f rest) hc
      have hc' : '=' ∈ f.data := by simpa using hc
      have hpa : parseArg (acc0, r0) f =
          .ok (dinsertA a (b, pyreplace (pyreplace f ".lua" "") "/" ".") acc0, some a) := by
        simp [parseArg, hc', hs]
      rw [hpa]
      obtain ⟨al, hal⟩ := ih (dinsertA a (b, pyreplace (pyreplace f ".lua" "") "/" ".") acc0)
        (some a) (fun g hg => h g (List.mem_cons_of_mem f hg))
      refine ⟨al, ?_⟩
      show List.foldlM parseArg _ rest = _
      rw [hal, designated_cons_pos f rest hc]
      have hhd : (pysplit f '=').headD f = a := by rw [hs]; rfl
      rw [hhd]
      cases designatedEntrySpec rest <;> rfl
    · have hcf : f.toList.contains '=' = false := by
        cases hcc : f.toList.contains '=' with
        | true => exact absurd hcc hc
        | false => rfl
      have hc' : '=' ∉ f.data := by simpa using hcf
      have hpa : parseArg (acc0, r0) f =
          .ok (dinsertA (get_global_module_name (pyreplace (pyreplace f ".lua" "") "/" "."))
            (f, pyreplace (pyreplace f ".lua" "") "/" ".") acc0, r0) := by
        simp [parseArg, hc']
      rw [hpa]
      obtain ⟨al, hal⟩ := ih _ r0 (fun g hg => h g (List.mem_cons_of_mem f hg))
      refine ⟨al, ?_⟩
      show List.foldlM parseArg _ rest = _
      rw [hal, designated_cons_neg f rest hcf]

/-- Counterexample to claim C7: with TWO arguments in `SYMBOL=PATH` form
(not exactly one), a `return` trailer is still emitted, using the symbol
of the LAST designated argument — so the trailer is not equivalent to
"exactly one module was designated".  (Here `s2`'s path was already
inlined during `s1`'s traversal, so no block with symbol `s2` even
exists; the trailer references it regardless.) -/
theorem C7_counterexample :
    mainBundle fs1 9 "gen" ["s1=a.lua", "s2=c.lua"] =
      .ok ["-- gen\n", "s1=(function()\n", "__mod_b=(function()\n", "return 1", "\n",
           "end)()\n", "\n", "local b=__mod_b", "\n", "__mod_c=(function()\n",
           "local b2=__mod_b", "\n", "return 2", "\n", "end)()\n", "\n",
           "local c=__mod_c", "\n", "return b+c", "\n", "end)()\n", "return s2"] ∧
    (["s1=a.lua", "s2=c.lua"].filter fun f => f.toList.contains '=').length = 2 :=
  ⟨rfl, rfl⟩

/-- Claim C7 (amended): the output ends with a `return SYMBOL` trailer
if and only if at least one argument used the `SYMBOL=PATH` form, and
the SYMBOL is that of the last such argument: `parseArgs` yields exactly
the last-designated symbol (none when no argument contains `=`), and
`mainBundle` appends `return SYMBOL` exactly when that symbol exists. -/
theorem C7_amended_return_trailer :
    (∀ (files : List String),
      (∀ f ∈ files, f.toList.contains '=' = true → ∃ a b, pysplit f '=' = [a, b]) →
      ∃ al, parseArgs files = .ok (al, designatedEntrySpec files)) ∧
    (∀ (files : List String),
      (∀ f ∈ files, f.toList.contains '=' = false) → designatedEntrySpec files = none) ∧
    (∀ (fs : FS) (fuel : Nat) (comment : String) (files : List String) (al : Aliases)
        (rsym : Option String),
      parseArgs files = .ok (al, rsym) →
      mainBundle fs fuel comment files =
        (bundleRun fs fuel al (headerOut comment)).map (addTrailer rsym)) ∧
    (∀ out : List String, addTrailer none out = out) ∧
    (∀ (s : String) (out : List String), addTrailer (some s) out = out ++ ["return " ++ s]) := by
  refine ⟨?_, ?_, ?_, fun _ => rfl, fun _ _ => rfl⟩
  · intro files h
    obtain ⟨al, hal⟩ := parseArgs_foldl files [] none h
    refine ⟨al, ?_⟩
    unfold parseArgs
    rw [hal]
    cases designatedEntrySpec files <;> rfl
  · intro files h
    unfold designatedEntrySpec
    rw [List.filter_eq_nil_iff.mpr (fun f hf => by simpa using h f hf)]
    rfl
  · intro fs fuel comment files al rsym h
    unfold mainBundle
    rw [h]

/-- Witness for the amended C7 at concrete argument lists. -/
theorem C7_amended_return_trailer_witness :
    (∃ al, parseArgs ["s1=a.lua"] = .ok (al, designatedEntrySpec ["s1=a.lua"])) ∧
    designatedEntrySpec ["b.lua"] = none ∧
    mainBundle fs1 3 "g" ["x=b.lua"] =
      (bundleRun fs1 3 [("x", "b.lua", "x=b")] (headerOut "g")).map (addTrailer (some "x")) :=
  ⟨C7_amended_return_trailer.1 ["s1=a.lua"]
     (fun f hf _ => by
       rw [List.mem_singleton.mp hf]
       exact ⟨"s1", "a.lua", rfl⟩),
   C7_amended_return_trailer.2.1 ["b.lua"] (fun f hf => by
       rw [List.mem_singleton.mp hf]; rfl),
   C7_amended_return_trailer.2.2.1 fs1 3 "g" ["x=b.lua"] [("x", "b.lua", "x=b")]
     (some "x") rfl⟩


namespace Mkreapack

/-- Membership through the stable insertion. -/
theorem mem_insK (x a : String) : ∀ l : List String, a ∈ insK x l ↔ a = x ∨ a ∈ l := by
  intro l
  induction l with
  | nil => simp [insK]
  | cons y ys ih =>
    unfold insK
    by_cases h : manifestKey x < manifestKey y
    · rw [if_pos h]
      simp [or_comm, or_assoc, or_left_comm]
    · rw [if_neg h]
      simp [ih, or_comm, or_assoc, or_left_comm]

/-- The stable insertion never produces an empty list. -/
theorem insK_ne_nil (x : String) : ∀ l : List String, insK x l ≠ [] := by
  intro l
  cases l with
  | nil => simp [insK]
  | cons y ys =>
    unfold insK
    by_cases h : manifestKey x < manifestKey y
    · rw [if_pos h]; simp
    · rw [if_neg h]; simp

/-- The stable insertion preserves key-sortedness. -/
theorem pairwise_insK (x : String) :
    ∀ l : List String, l.Pairwise (fun a b => manifestKey a ≤ manifestKey b) →
      (insK x l).Pairwise (fun a b => manifestKey a ≤ manifestKey b) := by
  intro l
  induction l with
  | nil => intro _; simp [insK]
  | cons y ys ih =>
    intro hp
    obtain ⟨hy, hys⟩ := List.pairwise_cons.mp hp
    unfold insK
    by_cases h : manifestKey x < manifestKey y
    · rw [if_pos h]
      refine List.pairwise_cons.mpr ⟨?_, hp⟩
      intro b hb
      rcases List.mem_cons.mp hb with h1 | h2
      · subst h1; omega
      · have := hy b h2; omega
    · rw [if_neg h]
      refine List.pairwise_cons.mpr ⟨?_, ih hys⟩
      intro b hb
      rcases (mem_insK x b ys).mp hb with h1 | h2
      · subst h1; omega
      · exact hy b h2

/-- The last element after a stable insertion into a key-sorted list is
the pick of the previous last element and the inserted one (the inserted
element wins ties, matching Python's stable ascending sort). -/
theorem getLast?_insK (x : String) :
    ∀ l : List String, l.Pairwise (fun a b => manifestKey a ≤ manifestKey b) →
      (insK x l).getLast? = pickLatest l.getLast? x := by
  intro l
  induction l with
  | nil => intro _; rfl
  | cons y ys ih =>
    intro hp
    obtain ⟨hy, hys⟩ := List.pairwise_cons.mp hp
    unfold insK
    by_cases h : manifestKey x < manifestKey y
    · rw [if_pos h]
      rw [List.getLast?_cons_cons]
      cases hgl : (y :: ys).getLast? with
      | none => exact absurd (List.getLast?_eq_none_iff.mp hgl) (by simp)
      | some a =>
        have hopt : a ∈ (y :: ys).getLast? := by rw [hgl]; rfl
        obtain ⟨hne, hx⟩ := List.mem_getLast?_eq_getLast hopt
        have hmem : a ∈ y :: ys := by rw [hx]; exact List.getLast_mem hne
        have hya : manifestKey y ≤ manifestKey a := by
          rcases List.mem_cons.mp hmem with h1 | h2
          · subst h1; omega
          · exact hy a h2
        rw [show pickLatest (some a) x =
          if manifestKey a ≤ manifestKey x then some x else some a from rfl]
        rw [if_neg (by omega)]
    · rw [if_neg h]
      cases hins : insK x ys with
      | nil => exact absurd hins (insK_ne_nil x ys)
      | cons z zs =>
        rw [List.getLast?_cons_cons]
        have hih := ih hys
        rw [hins] at hih
        rw [hih]
        cases ys with
        | nil =>
          rw [show pickLatest ((y :: ([] : List String)).getLast?) x =
            if manifestKey y ≤ manifestKey x then some x else some y from rfl]
          rw [if_pos (by omega)]
          rfl
        | cons w ws => rw [List.getLast?_cons_cons]

/-- Folding stable insertions over the manifest keeps the accumulator
key-sorted. -/
theorem pairwise_foldl_insK :
    ∀ (l : List String) (acc : List String),
      acc.Pairwise (fun a b => manifestKey a ≤ manifestKey b) →
      (l.foldl (fun a x => insK x a) acc).Pairwise
        (fun a b => manifestKey a ≤ manifestKey b) := by
  intro l
  induction l with
  | nil => intro acc h; exact h
  | cons x xs ih =>
    intro acc h
    rw [List.foldl_cons]
    exact ih (insK x acc) (pairwise_insK x acc h)

/-- The last element of the insertion-sorted list is computed by folding
`pickLatest` over the input in file order. -/
theorem getLast?_foldl_insK :
    ∀ (l : List String) (acc : List String),
      acc.Pairwise (fun a b => manifestKey a ≤ manifestKey b) →
      (l.foldl (fun a x => insK x a) acc).getLast? =
        l.foldl pickLatest acc.getLast? := by
  intro l
  induction l with
  | nil => intro acc _; rfl
  | cons x xs ih =>
    intro acc h
    rw [List.foldl_cons, List.foldl_cons]
    rw [ih (insK x acc) (pairwise_insK x acc h)]
    rw [getLast?_insK x acc h]

/-- The `sorted(versions, key=...)[-1]` selection equals a left fold of
`pickLatest` over the manifest lines in file order. -/
theorem get_latest_eq_foldl_pick (l : List String) :
    get_latest_from_manifest l = l.foldl pickLatest none := by
  unfold get_latest_from_manifest pysorted
  rw [getLast?_foldl_insK l [] List.Pairwise.nil]
  rfl


/-- The maximal major over an extended manifest. -/
theorem maxMajor_concat (l : List String) (x : String) :
    maxMajor (l ++ [x]) = max (maxMajor l) (manifestKey x) := by
  unfold maxMajor
  rw [List.map_append, List.foldl_append]
  rfl

/-- A non-empty manifest has a specification-latest entry, and its major
component is the maximal one. -/
theorem spec_achieves :
    ∀ l : List String, l ≠ [] →
      ∃ a, latestByMajorSpec l = some a ∧ manifestKey a = maxMajor l := by
  intro l
  induction l using List.reverseRecOn with
  | nil => intro h; exact absurd rfl h
  | append_singleton l x ih =>
    intro _
    by_cases hcmp : maxMajor l ≤ manifestKey x
    · have hmax : maxMajor (l ++ [x]) = manifestKey x := by
        rw [maxMajor_concat]; omega
      refine ⟨x, ?_, hmax.symm ▸ rfl⟩
      unfold latestByMajorSpec
      rw [hmax, List.filter_append]
      rw [show List.filter (fun v => manifestKey v == manifestKey x) [x] = [x] by simp]
      exact List.getLast?_concat _
    · have hlt : manifestKey x < maxMajor l := Nat.lt_of_not_le hcmp
      have hl : l ≠ [] := by
        intro h0
        rw [h0] at hlt
        simp [maxMajor] at hlt
      obtain ⟨a, ha, hka⟩ := ih hl
      have hmax : maxMajor (l ++ [x]) = maxMajor l := by
        rw [maxMajor_concat]; omega
      refine ⟨a, ?_, by rw [hmax]; exact hka⟩
      unfold latestByMajorSpec at ha ⊢
      rw [hmax, List.filter_append]
      rw [show List.filter (fun v => manifestKey v == maxMajor l) [x] = [] by
        simp; omega]
      rw [List.append_nil]
      exact ha

/-- The `pickLatest` fold selects, among the entries whose major
component is maximal, the one appearing last in the file. -/
theorem foldl_pick_eq_spec :
    ∀ l : List String, l.foldl pickLatest none = latestByMajorSpec l := by
  intro l
  induction l using List.reverseRecOn with
  | nil => rfl
  | append_singleton l x ih =>
    rw [List.foldl_append, List.foldl_cons, List.foldl_nil, ih]
    by_cases hl : l = []
    · subst hl
      show pickLatest (latestByMajorSpec []) x = latestByMajorSpec [x]
      rw [show latestByMajorSpec ([] : List String) = none from rfl]
      rw [show pickLatest none x = some x from rfl]
      unfold latestByMajorSpec
      rw [show maxMajor [x] = manifestKey x by unfold maxMajor; simp]
      rw [show List.filter (fun v => manifestKey v == manifestKey x) [x] = [x] by simp]
      rfl
    · obtain ⟨a, ha, hka⟩ := spec_achieves l hl
      rw [ha]
      rw [show pickLatest (some a) x =
        if manifestKey a ≤ manifestKey x then some x else some a from rfl]
      by_cases hax : manifestKey a ≤ manifestKey x
      · rw [if_pos hax]
        have hmax : maxMajor (l ++ [x]) = manifestKey x := by
          rw [maxMajor_concat]; omega
        unfold latestByMajorSpec
        rw [hmax, List.filter_append]
        rw [show List.filter (fun v => manifestKey v == manifestKey x) [x] = [x] by simp]
        exact (List.getLast?_concat _).symm
      · rw [if_neg hax]
        have hmax : maxMajor (l ++ [x]) = maxMajor l := by
          rw [maxMajor_concat]; omega
        unfold latestByMajorSpec at ha ⊢
        rw [hmax, List.filter_append]
        rw [show List.filter (fun v => manifestKey v == maxMajor l) [x] = [] by
          simp; omega]
        rw [List.append_nil, ha]

/-- Claim C10: `get_latest_from_manifest` considers only the integer
value of the first dot-separated component — among the entries whose
major component is maximal it selects the one appearing last in the
file, regardless of minor, patch or build-counter components; in
particular, `2.0.9` listed after `2.3.0` is selected over `2.3.0`. -/
theorem C10_latest_by_major :
    (∀ l : List String, get_latest_from_manifest l = latestByMajorSpec l) ∧
    get_latest_from_manifest ["2.3.0", "2.0.9"] = some "2.0.9" :=
  ⟨fun l => (get_latest_eq_foldl_pick l).trans (foldl_pick_eq_spec l), rfl⟩



end Mkreapack

/-- Witness for the amended C3 at the concrete module name `foo.bar`. -/
theorem C3_amended_symbol_derivation_witness :
    Luaknit.get_global_module_name "foo.bar" ++ Luaknit.suffixTag ".lua" =
      Luaknit.get_global_module_name "foo.bar" ∧
    Luaknit.get_global_module_name "foo.bar" ++ Luaknit.suffixTag "/init.lua" =
      Luaknit.get_global_module_name "foo.bar" ++ "_init" ∧
    Luaknit.get_global_module_name "foo.bar" ++ Luaknit.suffixTag ".lua" ≠
      Luaknit.get_global_module_name "foo.bar" ++ Luaknit.suffixTag "/init.lua" :=
  C3_amended_symbol_derivation "foo.bar"

/-- Witness for C10 at a concrete manifest. -/
theorem C10_latest_by_major_witness :
    Mkreapack.get_latest_from_manifest ["2.3.0", "2.0.9"] =
      Mkreapack.latestByMajorSpec ["2.3.0", "2.0.9"] :=
  Mkreapack.C10_latest_by_major.1 ["2.3.0", "2.0.9"]
